import Mathlib

/-!
Shallow embedding of the twitch.js client (src/lib/Twitch.js): the value model
of JavaScript option values, the query-string builder _parseOptions, and the
clip/stream helper methods built on top of it. Mutation of option objects is
made explicit by threading the object state; everything else is pure.
-/

set_option autoImplicit false

/-- A JS scalar that can appear as an element of an options array: a string or
a number. Numbers in the library are integers (limits, ids), modelled as Int. -/
inductive Scalar where
  | str : String → Scalar
  | num : Int → Scalar
  deriving DecidableEq

/-- String coercion of a scalar, as JS performs it on string concatenation. -/
def Scalar.toStr : Scalar → String
  | .str s => s
  | .num n => toString n

/-- A JS value that can sit in an options object: undefined, null, a string,
a number, an array of scalars, or a plain nested object (any other shape). -/
inductive Value where
  | undef : Value
  | null : Value
  | str : String → Value
  | num : Int → Value
  | arr : List Scalar → Value
  | obj : Value
  deriving DecidableEq

/-- JS truthiness: undefined, null, the empty string and 0 are falsy; every
array (even the empty one) and every object is truthy. -/
def Value.truthy : Value → Bool
  | .undef => false
  | .null => false
  | .str s => s ≠ ""
  | .num n => n ≠ 0
  | .arr _ => true
  | .obj => true

/-- String coercion of a value, as JS performs it on string concatenation:
an array joins its elements with commas, a plain object becomes the literal
text [object Object]. -/
def Value.toStr : Value → String
  | .undef => "undefined"
  | .null => "null"
  | .str s => s
  | .num n => toString n
  | .arr l => String.intercalate "," (l.map Scalar.toStr)
  | .obj => "[object Object]"

/-- Array.isArray. -/
def Value.isArr : Value → Bool
  | .arr _ => true
  | _ => false

/-- A JS object used as an options bag: an ordered association list from
property names to values, in insertion order, as Object.entries exposes it. -/
abbrev OptionsMap := List (String × Value)

/-- The fixed API base URL (line 3 of the source). -/
def API : String := "https://api.twitch.tv/helix/"

/-- Models url.slice(0, -1): the string without its final character. -/
def sliceDropLast (s : String) : String := String.mk s.data.dropLast

/-- Embedding of _parseOptions (lines 33-56): start from API + method + "?",
append key=value pairs for every truthy entry (one pair per element for an
array value), then cut the trailing separator. -/
def _parseOptions (method : String) (options : OptionsMap) : String :=
  let url := API ++ method ++ "?"
  let url := options.foldl (fun url param =>
    let key := param.1
    let value := param.2
    if value.truthy then
      match value with
      | Value.arr l => l.foldl (fun url p => url ++ key ++ "=" ++ p.toStr ++ "&") url
      | v => url ++ key ++ "=" ++ v.toStr ++ "&"
    else url) url
  sliceDropLast url

/-- Concatenation of a list of strings, in order. -/
def joinStrs : List String → String
  | [] => ""
  | s :: rest => s ++ joinStrs rest

/-- The text one loop iteration of _parseOptions appends for one entry:
nothing for a falsy value, one key=element+separator chunk per element for an
array, one key=value+separator chunk for any other truthy value. -/
def emitEntry (key : String) (value : Value) : String :=
  if value.truthy then
    match value with
    | Value.arr l => joinStrs (l.map (fun p => key ++ "=" ++ p.toStr ++ "&"))
    | v => key ++ "=" ++ v.toStr ++ "&"
  else ""

/-- The key=value pairs one entry contributes, in order. -/
def emittedPairs (key : String) (value : Value) : List (String × String) :=
  if value.truthy then
    match value with
    | Value.arr l => l.map (fun p => (key, p.toStr))
    | v => [(key, v.toStr)]
  else []

/-- All pairs an options map contributes, in insertion order. -/
def queryPairs (options : OptionsMap) : List (String × String) :=
  options.flatMap (fun p => emittedPairs p.1 p.2)

/-- A pair rendered verbatim: key, a literal equals sign, value, a literal
ampersand. -/
def renderPair (q : String × String) : String := q.1 ++ "=" ++ q.2 ++ "&"

/-- The URL shape _parseOptions produces: base, resource path, a literal
question mark, the verbatim pairs, minus the final separator character. -/
def renderUrl (method : String) (pairs : List (String × String)) : String :=
  sliceDropLast (API ++ method ++ "?" ++ joinStrs (pairs.map renderPair))

theorem joinStrs_append (a b : List String) :
    joinStrs (a ++ b) = joinStrs a ++ joinStrs b := by
  induction a with
  | nil => simp [joinStrs]
  | cons s rest ih => simp [joinStrs, ih, String.append_assoc]

theorem arr_foldl_eq (key : String) (l : List Scalar) (url : String) :
    l.foldl (fun url p => url ++ key ++ "=" ++ p.toStr ++ "&") url =
      url ++ joinStrs (l.map (fun p => key ++ "=" ++ p.toStr ++ "&")) := by
  induction l generalizing url with
  | nil => simp [joinStrs]
  | cons p rest ih =>
    rw [List.foldl_cons, ih, List.map_cons, joinStrs]
    simp [String.append_assoc]

/-- One loop step of _parseOptions appends exactly emitEntry. -/
theorem parseOptions_step_eq (url key : String) (value : Value) :
    (if value.truthy then
      match value with
      | Value.arr l => l.foldl (fun url p => url ++ key ++ "=" ++ p.toStr ++ "&") url
      | v => url ++ key ++ "=" ++ v.toStr ++ "&"
     else url) = url ++ emitEntry key value := by
  cases value with
  | arr l => rw [emitEntry]; simp [Value.truthy, arr_foldl_eq]
  | undef => simp [Value.truthy, emitEntry]
  | null => simp [Value.truthy, emitEntry]
  | str s =>
    by_cases h : (Value.str s).truthy
    · simp [h, emitEntry, String.append_assoc]
    · simp [h, emitEntry]
  | num n =>
    by_cases h : (Value.num n).truthy
    · simp [h, emitEntry, String.append_assoc]
    · simp [h, emitEntry]
  | obj => simp [Value.truthy, emitEntry, String.append_assoc]

theorem parseOptions_foldl_eq (options : OptionsMap) (url : String) :
    options.foldl (fun url param =>
      let key := param.1
      let value := param.2
      if value.truthy then
        match value with
        | Value.arr l => l.foldl (fun url p => url ++ key ++ "=" ++ p.toStr ++ "&") url
        | v => url ++ key ++ "=" ++ v.toStr ++ "&"
      else url) url =
      url ++ joinStrs (options.map (fun p => emitEntry p.1 p.2)) := by
  induction options generalizing url with
  | nil => simp [joinStrs]
  | cons e rest ih =>
    rw [List.foldl_cons, ih, List.map_cons, joinStrs]
    show (if e.2.truthy then _ else _) ++ _ = _
    rw [parseOptions_step_eq, String.append_assoc]

/-- Structural form of _parseOptions: the per-entry chunks concatenated in
insertion order, inside the fixed URL frame. -/
theorem parseOptions_eq_emit (method : String) (options : OptionsMap) :
    _parseOptions method options =
      sliceDropLast (API ++ method ++ "?" ++
        joinStrs (options.map (fun p => emitEntry p.1 p.2))) := by
  show sliceDropLast (options.foldl _ (API ++ method ++ "?")) = _
  rw [parseOptions_foldl_eq]

/-- One entry renders as its pair list. -/
theorem emitEntry_eq_renderPairs (key : String) (value : Value) :
    emitEntry key value = joinStrs ((emittedPairs key value).map renderPair) := by
  cases value with
  | arr l =>
    rw [emitEntry, emittedPairs]
    simp only [Value.truthy, if_true, List.map_map]
    congr 1
  | undef => rfl
  | null => rfl
  | str s =>
    by_cases h : (Value.str s).truthy
    · simp [emitEntry, emittedPairs, h, renderPair, joinStrs]
    · simp [emitEntry, emittedPairs, h, joinStrs]
  | num n =>
    by_cases h : (Value.num n).truthy
    · simp [emitEntry, emittedPairs, h, renderPair, joinStrs]
    · simp [emitEntry, emittedPairs, h, joinStrs]
  | obj => simp [emitEntry, emittedPairs, Value.truthy, renderPair, joinStrs]

theorem queryPairs_append (a b : OptionsMap) :
    queryPairs (a ++ b) = queryPairs a ++ queryPairs b := by
  simp [queryPairs]

theorem queryPairs_cons (e : String × Value) (rest : OptionsMap) :
    queryPairs (e :: rest) = emittedPairs e.1 e.2 ++ queryPairs rest := by
  simp [queryPairs]

theorem joinStrs_emit_eq_pairs (options : OptionsMap) :
    joinStrs (options.map (fun p => emitEntry p.1 p.2)) =
      joinStrs ((queryPairs options).map renderPair) := by
  induction options with
  | nil => rfl
  | cons e rest ih =>
    rw [List.map_cons, joinStrs, queryPairs_cons, List.map_append, joinStrs_append,
      ih, emitEntry_eq_renderPairs]

/-- Bridge: _parseOptions is exactly the verbatim rendering of the pair list
the options map contributes, in insertion order. -/
theorem parseOptions_eq_render (method : String) (options : OptionsMap) :
    _parseOptions method options = renderUrl method (queryPairs options) := by
  rw [parseOptions_eq_emit, renderUrl, joinStrs_emit_eq_pairs]

/-- JS property read o[k]: the value at the first matching key, undefined when
the key is absent. -/
def getProp : OptionsMap → String → Value
  | [], _ => Value.undef
  | (k', v') :: rest, k => if k' = k then v' else getProp rest k

/-- JS property assignment o[k] = v: overwrite the binding in place when the
key exists (keys of JS objects are unique), otherwise append it at the end. -/
def setProp : OptionsMap → String → Value → OptionsMap
  | [], k, v => [(k, v)]
  | (k', v') :: rest, k, v =>
      if k' = k then (k', v) :: rest else (k', v') :: setProp rest k v

/-- JS destructuring default: the default replaces the value only when it is
undefined. -/
def destructureDefault (v d : Value) : Value :=
  if v = Value.undef then d else v

/-- The client object: the constructor stores the two configuration strings
(lines 11-26); _parseOptions does not read either. -/
structure Twitch where
  client_id : String
  bearer_token : String
  deriving DecidableEq

/-- Alias for the top-level embedding, so the method body below can refer to
it from inside the Twitch namespace. -/
def parseOptionsFn (method : String) (options : OptionsMap) : String :=
  _parseOptions method options

/-- _parseOptions as the method of a client instance; its body (lines 33-56)
never mentions this, so the receiver is unused. -/
def Twitch._parseOptions (_self : Twitch) (method : String) (options : OptionsMap) :
    String :=
  parseOptionsFn method options

/-- Embedding of _getClips (lines 127-131): the body assigns
options[method] = query, mutating the received object, then builds the clips
URL. Returned pair: the built URL and the state of the received options
object after the call. -/
def _getClips (method : String) (query : Value) (options : OptionsMap) :
    String × OptionsMap :=
  let options := setProp options method query
  (_parseOptions "clips" options, options)

/-- Embedding of _getVideos (lines 397-401): same assignment, videos URL. -/
def _getVideos (method : String) (query : Value) (options : OptionsMap) :
    String × OptionsMap :=
  let options := setProp options method query
  (_parseOptions "videos" options, options)

/-- The object literal a public clip method builds and hands to _getClips
(for example lines 145-151). -/
def clipCallOpts (limit fp bp startedAt endedAt : Value) : OptionsMap :=
  [("first", limit), ("after", fp), ("before", bp),
   ("started_at", startedAt), ("ended_at", endedAt)]

/-- getClipsByBroadcaster (lines 138-152): destructure with limit = 20
default, build the literal, delegate to _getClips with the broadcaster_id
key. -/
def getClipsByBroadcaster (id limit fp bp endedAt startedAt : Value) :
    String × OptionsMap :=
  _getClips "broadcaster_id" id
    (clipCallOpts (destructureDefault limit (Value.num 20)) fp bp startedAt endedAt)

/-- The value stored under opts[method] (lines 211-217): an array query is
copied element by element into a fresh empty array, any other query is stored
as is. -/
def copyArray (query : Value) : Value :=
  match query with
  | Value.arr qs => Value.arr (qs.foldl (fun acc q => acc ++ [q]) [])
  | q => q

/-- Lines 220-224: when opts.language is an array, forEach over its original
elements pushes each of them back onto the same array, doubling it in place. -/
def doubleLanguage (opts : OptionsMap) : OptionsMap :=
  match getProp opts "language" with
  | Value.arr ls => setProp opts "language" (Value.arr (ls ++ ls))
  | _ => opts

/-- The opts object _getStreams builds (lines 202-225): read language, limit,
forwardPagination and backwardPagination off the received options (the public
methods pass the keys first, after and before instead, so those three reads
give undefined); when method and query are both truthy, assign opts[method];
finally double an array-valued language in place. -/
def _getStreamsOpts (method query : Value) (options : OptionsMap) : OptionsMap :=
  let opts : OptionsMap :=
    [("language", getProp options "language"),
     ("first", getProp options "limit"),
     ("after", getProp options "forwardPagination"),
     ("before", getProp options "backwardPagination")]
  let opts :=
    if method.truthy && query.truthy then setProp opts method.toStr (copyArray query)
    else opts
  doubleLanguage opts

/-- Embedding of _getStreams (lines 202-228): build opts, then the streams
URL. -/
def _getStreams (method query : Value) (options : OptionsMap) : String :=
  _parseOptions "streams" (_getStreamsOpts method query options)

/-- The object literal each public stream method passes to _getStreams (for
example lines 297-302): an array-valued language argument is replaced by a
fresh empty array; the limit goes under the key first, the cursors under
after and before. -/
def streamCallOpts (language limit fp bp : Value) : OptionsMap :=
  [("language", if language.isArr then Value.arr [] else language),
   ("first", limit), ("after", fp), ("before", bp)]

/-- getStreams (lines 291-303). -/
def getStreams (language limit fp bp : Value) : String :=
  _getStreams Value.null Value.null
    (streamCallOpts language (destructureDefault limit (Value.num 20)) fp bp)

/-- getStreamsByBroadcasterID (lines 235-247). -/
def getStreamsByBroadcasterID (query language limit fp bp : Value) : String :=
  _getStreams (Value.str "user_id") query
    (streamCallOpts language (destructureDefault limit (Value.num 20)) fp bp)

/-- getStreamsByGameId (lines 254-266). -/
def getStreamsByGameId (id language limit fp bp : Value) : String :=
  _getStreams (Value.str "game_id") id
    (streamCallOpts language (destructureDefault limit (Value.num 20)) fp bp)

/-- getStreamsByUsername (lines 273-285). -/
def getStreamsByUsername (name language limit fp bp : Value) : String :=
  _getStreams (Value.str "user_login") name
    (streamCallOpts language (destructureDefault limit (Value.num 20)) fp bp)

/-- True when no pair of the list carries the given key. -/
def noKey (pairs : List (String × String)) (key : String) : Bool :=
  pairs.all (fun q => q.1 ≠ key)

theorem mem_emittedPairs_key (k : String) (v : Value) (q : String × String)
    (hq : q ∈ emittedPairs k v) : q.1 = k := by
  unfold emittedPairs at hq
  by_cases h : v.truthy
  · rw [if_pos h] at hq
    cases v with
    | arr l =>
      obtain ⟨p, _, hp⟩ := List.mem_map.mp hq
      rw [← hp]
    | undef => simp at hq; rw [hq]
    | null => simp at hq; rw [hq]
    | str s => simp at hq; rw [hq]
    | num n => simp at hq; rw [hq]
    | obj => simp at hq; rw [hq]
  · rw [if_neg h] at hq
    exact absurd hq (List.not_mem_nil q)

theorem noKey_append (a b : List (String × String)) (key : String) :
    noKey (a ++ b) key = (noKey a key && noKey b key) := by
  simp [noKey, List.all_append]

theorem noKey_emittedPairs (k key : String) (v : Value) (h : k ≠ key) :
    noKey (emittedPairs k v) key = true := by
  rw [noKey, List.all_eq_true]
  intro q hq
  have := mem_emittedPairs_key k v q hq
  simp [this, h]

theorem getProp_setProp_ne (m : OptionsMap) (k k' : String) (v : Value)
    (h : k' ≠ k) : getProp (setProp m k v) k' = getProp m k' := by
  induction m with
  | nil => simp [setProp, getProp, Ne.symm h]
  | cons e rest ih =>
    rcases e with ⟨ek, ev⟩
    by_cases hek : ek = k
    · subst hek
      simp [setProp, getProp, Ne.symm h]
    · by_cases hek' : ek = k'
      · simp [setProp, getProp, hek, hek', h]
      · simp [setProp, getProp, hek, hek', ih]

theorem getProp_setProp_self (m : OptionsMap) (k : String) (v : Value) :
    getProp (setProp m k v) k = v := by
  induction m with
  | nil => simp [setProp, getProp]
  | cons e rest ih =>
    rcases e with ⟨ek, ev⟩
    by_cases hek : ek = k
    · simp [setProp, getProp, hek]
    · simp [setProp, getProp, hek, ih]

theorem mem_setProp (m : OptionsMap) (k : String) (v : Value) (p : String × Value)
    (hp : p ∈ setProp m k v) : p ∈ m ∨ (p.1 = k ∧ p.2 = v) := by
  induction m with
  | nil =>
    simp [setProp] at hp
    right
    rw [hp]
    exact ⟨rfl, rfl⟩
  | cons e rest ih =>
    rcases e with ⟨ek, ev⟩
    by_cases hek : ek = k
    · rw [setProp, if_pos hek] at hp
      rcases List.mem_cons.mp hp with hp1 | hp2
      · right
        rw [hp1, hek]
        exact ⟨rfl, rfl⟩
      · exact Or.inl (List.mem_cons_of_mem _ hp2)
    · rw [setProp, if_neg hek] at hp
      rcases List.mem_cons.mp hp with hp1 | hp2
      · exact Or.inl (hp1 ▸ List.mem_cons_self _ _)
      · rcases ih hp2 with hm | hkv
        · exact Or.inl (List.mem_cons_of_mem _ hm)
        · exact Or.inr hkv

theorem noKey_queryPairs_general (m : OptionsMap) (key : String)
    (h : ∀ p ∈ m, p.1 ≠ key ∨ emittedPairs p.1 p.2 = []) :
    noKey (queryPairs m) key = true := by
  induction m with
  | nil => rfl
  | cons e rest ih =>
    rw [queryPairs_cons, noKey_append, Bool.and_eq_true]
    refine ⟨?_, ih (fun p hp => h p (List.mem_cons_of_mem e hp))⟩
    rcases h e (List.mem_cons_self e rest) with he | he
    · exact noKey_emittedPairs e.1 key e.2 he
    · rw [he]
      rfl

theorem emitEntry_falsy (k : String) (v : Value) (h : v.truthy = false) :
    emitEntry k v = "" := by
  cases v with
  | arr l => exact absurd h (by simp [Value.truthy])
  | undef => rfl
  | null => rfl
  | str s =>
    have hs : s = "" := by simpa [Value.truthy] using h
    subst hs
    rfl
  | num n =>
    have hn : n = 0 := by simpa [Value.truthy] using h
    subst hn
    rfl
  | obj => exact absurd h (by simp [Value.truthy])

theorem joinStrs_emit_nil (options : OptionsMap) :
    (∀ p ∈ options, p.2.truthy = false) →
    joinStrs (options.map (fun p => emitEntry p.1 p.2)) = "" := by
  induction options with
  | nil => intro _; rfl
  | cons e rest ih =>
    intro h
    rw [List.map_cons, joinStrs, ih (fun p hp => h p (List.mem_cons_of_mem e hp)),
      emitEntry_falsy e.1 e.2 (h e (List.mem_cons_self e rest))]
    rfl

theorem sliceDropLast_q (s : String) : sliceDropLast (s ++ "?") = s := by
  rw [sliceDropLast]
  have hd : (s ++ "?").data = s.data ++ ['?'] := by simp
  rw [hd, List.dropLast_concat]

/-- Any block sitting strictly before the final character survives dropping
that character. -/
theorem infix_dropLast (A mid t : List Char) (c : Char) :
    mid <:+: (A ++ (mid ++ c :: t)).dropLast := by
  have h1 : (A ++ (mid ++ c :: t)).dropLast = A ++ (mid ++ (c :: t).dropLast) := by
    rw [List.dropLast_append_of_ne_nil, List.dropLast_append_of_ne_nil] <;> simp
  rw [h1]
  exact ⟨A, (c :: t).dropLast, by rw [List.append_assoc]⟩

/-- When the language slot already holds the empty array, the in-place
doubling rewrites it to the empty array again. -/
theorem doubleLanguage_empty (m : OptionsMap)
    (hm : getProp m "language" = Value.arr []) :
    doubleLanguage m = setProp m "language" (Value.arr []) := by
  rw [doubleLanguage.eq_def, hm]
  rfl

/-- Core of claim C10: whatever the query and the remaining options are, once
the language argument of a public stream method is an array, the opts map that
_getStreams hands to _parseOptions contributes no pair keyed language, for any
method value whose key string is not itself the text language. -/
theorem noLanguage_core (mv q : Value) (hmv : mv.toStr ≠ "language")
    (ls : List Scalar) (lim fp bp : Value) :
    noKey (queryPairs (_getStreamsOpts mv q
      (streamCallOpts (Value.arr ls) lim fp bp))) "language" = true := by
  have hopts : _getStreamsOpts mv q (streamCallOpts (Value.arr ls) lim fp bp) =
      doubleLanguage (if (mv.truthy && q.truthy) = true then
        setProp [("language", Value.arr []), ("first", Value.undef),
          ("after", Value.undef), ("before", Value.undef)] mv.toStr (copyArray q)
      else
        [("language", Value.arr []), ("first", Value.undef),
         ("after", Value.undef), ("before", Value.undef)]) := rfl
  rw [hopts]
  by_cases hc : (mv.truthy && q.truthy) = true
  · rw [if_pos hc]
    have hlang : getProp (setProp
        [("language", Value.arr []), ("first", Value.undef),
         ("after", Value.undef), ("before", Value.undef)] mv.toStr (copyArray q))
        "language" = Value.arr [] := by
      rw [getProp_setProp_ne _ _ _ _ (Ne.symm hmv)]
      rfl
    rw [doubleLanguage_empty _ hlang]
    apply noKey_queryPairs_general
    intro p hp
    rcases mem_setProp _ _ _ _ hp with hp2 | hkv
    · rcases mem_setProp _ _ _ _ hp2 with hpb | hkv2
      · rcases List.mem_cons.mp hpb with h1 | hpb
        · right
          rw [h1]
          rfl
        · rcases List.mem_cons.mp hpb with h2 | hpb
          · left
            rw [h2]
            decide
          · rcases List.mem_cons.mp hpb with h3 | hpb
            · left
              rw [h3]
              decide
            · rcases List.mem_cons.mp hpb with h4 | hpb
              · left
                rw [h4]
                decide
              · exact absurd hpb (List.not_mem_nil p)
      · left
        rw [hkv2.1]
        exact hmv
    · right
      rw [hkv.2]
      rfl
  · rw [if_neg hc]
    decide

/-- C1 counterexample: the empty array is truthy in JS, yet its entry
contributes no key=value pair, so an entry does not contribute if and only if
its value is truthy: here the options map holds one truthy value and the
output carries no parameter at all. -/
theorem emptyArray_truthy_no_pair_cex :
    (Value.arr []).truthy = true ∧
    emittedPairs "language" (Value.arr []) = [] ∧
    _parseOptions "streams" [("language", Value.arr [])] =
      "https://api.twitch.tv/helix/streams" :=
  ⟨rfl, rfl, by decide⟩

/-- C1 (amended): _parseOptions renders exactly the pairs of queryPairs, and
an entry contributes at least one key=value pair if and only if its value is
truthy and is not the empty array; in particular every falsy value (absent,
undefined, null, empty string, zero) contributes nothing. -/
theorem contribution_iff_truthy_and_not_emptyArr :
    (∀ (method : String) (options : OptionsMap),
      _parseOptions method options = renderUrl method (queryPairs options)) ∧
    (∀ (k : String) (v : Value),
      emittedPairs k v = [] ↔ (v.truthy = false ∨ v = Value.arr [])) := by
  refine ⟨parseOptions_eq_render, fun k v => ?_⟩
  cases v with
  | undef => simp [emittedPairs, Value.truthy]
  | null => simp [emittedPairs, Value.truthy]
  | str s =>
    by_cases hs : s = ""
    · subst hs
      simp [emittedPairs, Value.truthy]
    · simp [emittedPairs, Value.truthy, hs]
  | num n =>
    by_cases hn : n = 0
    · subst hn
      simp [emittedPairs, Value.truthy]
    · simp [emittedPairs, Value.truthy, hn]
  | arr l => simp [emittedPairs, Value.truthy]
  | obj => simp [emittedPairs, Value.truthy]

/-- C2: the builder reproduces the two concrete examples of the spec exactly. -/
theorem parseOptions_spec_examples :
    _parseOptions "games" [("id", Value.str "493057")] =
      "https://api.twitch.tv/helix/games?id=493057" ∧
    _parseOptions "clips"
      [("broadcaster_id", Value.str "44322889"), ("first", Value.num 20)] =
      "https://api.twitch.tv/helix/clips?broadcaster_id=44322889&first=20" :=
  ⟨by decide, by decide⟩

/-- C3: an array-valued entry expands into one key=element pair per element,
in element order, wherever the entry sits in the options map; the spec example
language = [en, es] yields the two adjacent repeated pairs in input order. -/
theorem array_value_expands_per_element :
    (∀ (method k : String) (l : List Scalar) (pre post : OptionsMap),
      _parseOptions method (pre ++ (k, Value.arr l) :: post) =
        renderUrl method
          (queryPairs pre ++ l.map (fun p => (k, p.toStr)) ++ queryPairs post)) ∧
    _parseOptions "streams"
      [("language", Value.arr [Scalar.str "en", Scalar.str "es"])] =
      "https://api.twitch.tv/helix/streams?language=en&language=es" := by
  constructor
  · intro method k l pre post
    rw [parseOptions_eq_render, queryPairs_append, queryPairs_cons]
    have he : emittedPairs k (Value.arr l) = l.map (fun p => (k, p.toStr)) := rfl
    rw [he, List.append_assoc]
  · decide

/-- C4: when every value of the options map is falsy, the result is exactly
the base URL concatenated with the resource path: the question mark written
before the loop is the single trailing character removed afterwards, and no
parameter text remains. -/
theorem all_falsy_gives_bare_url (method : String) (options : OptionsMap)
    (h : ∀ p ∈ options, p.2.truthy = false) :
    _parseOptions method options = API ++ method := by
  rw [parseOptions_eq_emit, joinStrs_emit_nil options h, String.append_empty,
    sliceDropLast_q]

theorem all_falsy_gives_bare_url_witness :
    _parseOptions "clips"
      [("after", Value.undef), ("first", Value.num 0), ("before", Value.str ""),
       ("started_at", Value.null)] = API ++ "clips" :=
  all_falsy_gives_bare_url "clips" _ (by decide)

/-- C5: the output is the concatenation, in insertion order, of a fixed
per-entry chunk inside a fixed frame, so it is fully determined by the input
and permutes exactly as the insertion order of the entries permutes; the two
concrete instances show the same two entries in both orders. -/
theorem output_order_follows_insertion_order :
    (∀ (method : String) (options : OptionsMap),
      _parseOptions method options =
        sliceDropLast (API ++ method ++ "?" ++
          joinStrs (options.map (fun p => emitEntry p.1 p.2)))) ∧
    _parseOptions "clips" [("a", Value.str "1"), ("b", Value.str "2")] =
      "https://api.twitch.tv/helix/clips?a=1&b=2" ∧
    _parseOptions "clips" [("b", Value.str "2"), ("a", Value.str "1")] =
      "https://api.twitch.tv/helix/clips?b=2&a=1" :=
  ⟨parseOptions_eq_emit, by decide, by decide⟩

/-- C6 counterexample: _getClips mutates the options mapping it receives
after its construction: with the literal getClipsByBroadcaster builds, the
mapping observed after the call differs from the mapping before it. -/
theorem getClips_mutates_options_cex :
    (_getClips "broadcaster_id" (Value.str "44322889")
      (clipCallOpts (Value.num 20) Value.undef Value.undef Value.undef
        Value.undef)).2 ≠
      clipCallOpts (Value.num 20) Value.undef Value.undef Value.undef
        Value.undef := by
  decide

/-- C6 (amended): the helpers _getClips and _getVideos do mutate the mapping
they receive, by assigning the method key; that assignment is the whole
mutation: it changes the binding of the assigned key only and leaves every
other key reading the same value, and the public methods hand the helpers
freshly built literals rather than a caller-supplied object. -/
theorem mutation_confined_to_method_key (m : OptionsMap) (k : String)
    (v : Value) (k' : String) (h : k' ≠ k) :
    getProp (setProp m k v) k' = getProp m k' ∧
    getProp (setProp m k v) k = v ∧
    (∀ (method : String) (query : Value) (options : OptionsMap),
      (_getClips method query options).2 = setProp options method query ∧
      (_getVideos method query options).2 = setProp options method query) ∧
    (∀ (id limit fp bp endedAt startedAt : Value),
      getClipsByBroadcaster id limit fp bp endedAt startedAt =
        _getClips "broadcaster_id" id
          (clipCallOpts (destructureDefault limit (Value.num 20)) fp bp
            startedAt endedAt)) :=
  ⟨getProp_setProp_ne m k k' v h, getProp_setProp_self m k v,
    fun _ _ _ => ⟨rfl, rfl⟩, fun _ _ _ _ _ _ => rfl⟩

theorem mutation_confined_to_method_key_witness :
    getProp (setProp (clipCallOpts (Value.num 20) Value.undef Value.undef
        Value.undef Value.undef) "broadcaster_id" (Value.str "44322889"))
      "first" =
      getProp (clipCallOpts (Value.num 20) Value.undef Value.undef Value.undef
        Value.undef) "first" :=
  (mutation_confined_to_method_key _ "broadcaster_id" (Value.str "44322889")
    "first" (by decide)).1

/-- C7: _parseOptions is a total function of its two arguments; an
unsupported value shape — a nested plain object — raises nothing and is
serialized through the JS string coercion on concatenation, appearing as the
literal text [object Object]. -/
theorem parseOptions_total_object_coercion :
    (∀ (method k : String) (pre post : OptionsMap),
      _parseOptions method (pre ++ (k, Value.obj) :: post) =
        renderUrl method
          (queryPairs pre ++ [(k, "[object Object]")] ++ queryPairs post)) ∧
    _parseOptions "games" [("filter", Value.obj)] =
      "https://api.twitch.tv/helix/games?filter=[object Object]" := by
  constructor
  · intro method k pre post
    rw [parseOptions_eq_render, queryPairs_append, queryPairs_cons]
    have he : emittedPairs k Value.obj = [(k, "[object Object]")] := rfl
    rw [he, List.append_assoc]
  · decide

/-- C8: _parseOptions reads no state outside its arguments: its result does
not depend on the client instance it is invoked on, so two calls with
identical inputs give the identical string. -/
theorem parseOptions_stateless :
    ∀ (t t' : Twitch) (method : String) (options : OptionsMap),
      t._parseOptions method options = t'._parseOptions method options ∧
      t._parseOptions method options = _parseOptions method options :=
  fun _ _ _ _ => ⟨rfl, rfl⟩

/-- C9: no URL-encoding happens anywhere: every emitted key and value appears
byte for byte in the output, joined only by the literal equals sign and
ampersand after the initial question mark — the first conjunct gives the
whole output as the verbatim pair rendering, the second exhibits the raw
key=value text as a contiguous block of the final string. -/
theorem values_inserted_verbatim (method k v : String) (pre post : OptionsMap)
    (h : v ≠ "") :
    _parseOptions method (pre ++ (k, Value.str v) :: post) =
      renderUrl method (queryPairs pre ++ [(k, v)] ++ queryPairs post) ∧
    (k ++ "=" ++ v).data <:+:
      (_parseOptions method (pre ++ (k, Value.str v) :: post)).data := by
  have he : emittedPairs k (Value.str v) = [(k, v)] := by
    simp [emittedPairs, Value.truthy, h, Value.toStr]
  have hpairs : _parseOptions method (pre ++ (k, Value.str v) :: post) =
      renderUrl method (queryPairs pre ++ [(k, v)] ++ queryPairs post) := by
    rw [parseOptions_eq_render, queryPairs_append, queryPairs_cons, he,
      List.append_assoc]
  refine ⟨hpairs, ?_⟩
  rw [hpairs]
  have hdata : ∀ (s : String), (sliceDropLast s).data = s.data.dropLast :=
    fun _ => rfl
  have hEq : (renderUrl method
        (queryPairs pre ++ [(k, v)] ++ queryPairs post)).data =
      ((API ++ method ++ "?" ++
          joinStrs ((queryPairs pre).map renderPair)).data ++
        ((k ++ "=" ++ v).data ++
          '&' :: (joinStrs ((queryPairs post).map renderPair)).data)).dropLast := by
    rw [renderUrl, hdata]
    congr 1
    simp [List.map_append, joinStrs_append, joinStrs, renderPair,
      String.data_append, List.append_assoc]
  rw [hEq]
  exact infix_dropLast _ _ _ '&'

theorem values_inserted_verbatim_witness :
    _parseOptions "games" ([] ++ ("name", Value.str "a b&c=d") :: []) =
      renderUrl "games" (queryPairs [] ++ [("name", "a b&c=d")] ++ queryPairs []) ∧
    ("name" ++ "=" ++ "a b&c=d").data <:+:
      (_parseOptions "games" ([] ++ ("name", Value.str "a b&c=d") :: [])).data :=
  values_inserted_verbatim "games" "name" "a b&c=d" [] [] (by decide)

/-- C10: whenever a public stream method receives an array-valued language
option, the opts map handed to _parseOptions contributes no pair keyed
language at all — the array is replaced by a fresh empty array, which the
in-place doubling leaves empty and the serializer expands into zero pairs —
so the built URL carries no language parameter, as the closing concrete call
shows. -/
theorem public_stream_array_language_dropped :
    (∀ (query limit fp bp : Value) (ls : List Scalar),
      noKey (queryPairs (_getStreamsOpts (Value.str "user_id") query
        (streamCallOpts (Value.arr ls) (destructureDefault limit (Value.num 20))
          fp bp))) "language" = true ∧
      getStreamsByBroadcasterID query (Value.arr ls) limit fp bp =
        renderUrl "streams" (queryPairs (_getStreamsOpts (Value.str "user_id")
          query (streamCallOpts (Value.arr ls)
            (destructureDefault limit (Value.num 20)) fp bp)))) ∧
    (∀ (id limit fp bp : Value) (ls : List Scalar),
      noKey (queryPairs (_getStreamsOpts (Value.str "game_id") id
        (streamCallOpts (Value.arr ls) (destructureDefault limit (Value.num 20))
          fp bp))) "language" = true ∧
      getStreamsByGameId id (Value.arr ls) limit fp bp =
        renderUrl "streams" (queryPairs (_getStreamsOpts (Value.str "game_id")
          id (streamCallOpts (Value.arr ls)
            (destructureDefault limit (Value.num 20)) fp bp)))) ∧
    (∀ (nm limit fp bp : Value) (ls : List Scalar),
      noKey (queryPairs (_getStreamsOpts (Value.str "user_login") nm
        (streamCallOpts (Value.arr ls) (destructureDefault limit (Value.num 20))
          fp bp))) "language" = true ∧
      getStreamsByUsername nm (Value.arr ls) limit fp bp =
        renderUrl "streams" (queryPairs (_getStreamsOpts (Value.str "user_login")
          nm (streamCallOpts (Value.arr ls)
            (destructureDefault limit (Value.num 20)) fp bp)))) ∧
    (∀ (limit fp bp : Value) (ls : List Scalar),
      noKey (queryPairs (_getStreamsOpts Value.null Value.null
        (streamCallOpts (Value.arr ls) (destructureDefault limit (Value.num 20))
          fp bp))) "language" = true ∧
      getStreams (Value.arr ls) limit fp bp =
        renderUrl "streams" (queryPairs (_getStreamsOpts Value.null Value.null
          (streamCallOpts (Value.arr ls)
            (destructureDefault limit (Value.num 20)) fp bp)))) ∧
    getStreams (Value.arr [Scalar.str "en", Scalar.str "es"]) Value.undef
      Value.undef Value.undef = "https://api.twitch.tv/helix/streams" := by
  refine ⟨fun query limit fp bp ls =>
      ⟨noLanguage_core _ _ (by decide) _ _ _ _, parseOptions_eq_render _ _⟩,
    fun id limit fp bp ls =>
      ⟨noLanguage_core _ _ (by decide) _ _ _ _, parseOptions_eq_render _ _⟩,
    fun nm limit fp bp ls =>
      ⟨noLanguage_core _ _ (by decide) _ _ _ _, parseOptions_eq_render _ _⟩,
    fun limit fp bp ls =>
      ⟨noLanguage_core _ _ (by decide) _ _ _ _, parseOptions_eq_render _ _⟩,
    by decide⟩
